import Mathlib

/-!
Verification of the placement engine of this repository: the coordinate
mapper, the occupancy grid, the First-Fit, Space-Filling-Curve and
L1-Clustering allocation policies of src/tools/placement_lib.py, and the
validation and orchestration logic of src/tools/place.py, shallowly
embedded in Lean.

Conventions of the embedding:
- an occupancy grid of the torus is a total function Grid = Nat → Nat →
  Nat → Bool, true meaning occupied (the Python code stores 1), and only
  the entries at coordinates inside the torus are ever consulted;
- Python dictionaries {job_linear_index: torus_linear_index} built by
  loops in increasing key order are embedded as association lists in the
  same order;
- fallible functions return Option, fatal errors become Except.error.
-/

/-- Torus dimensions (W, L, H), as in the Python tuples. -/
abbrev Dims := Nat × Nat × Nat

/-- A 3D coordinate (x, y, z). -/
abbrev Coord := Nat × Nat × Nat

/-- Embedding of coord_to_linear_index of src/tools/placement_lib.py:
plane-major linear index (z * L * W) + (y * W) + x for dims = (W, L, H). -/
def coord_to_linear_index (x y z : Nat) (dims : Dims) : Nat :=
  z * dims.2.1 * dims.1 + y * dims.1 + x

/-- Inverse decoding of the plane-major convention (x fastest, z slowest),
as described by the specification of the coordinate mapper. -/
def decode_linear_index (i : Nat) (dims : Dims) : Coord :=
  (i % dims.1, (i / dims.1) % dims.2.1, i / (dims.1 * dims.2.1))

lemma coord_to_linear_index_decompose (W L H x y z : Nat) :
    coord_to_linear_index x y z (W, L, H) = x + W * (y + L * z) := by
  unfold coord_to_linear_index; ring

lemma decode_coord_to_linear_index (W L H x y z : Nat) (hx : x < W) (hy : y < L) :
    decode_linear_index (coord_to_linear_index x y z (W, L, H)) (W, L, H) = (x, y, z) := by
  have hW : 0 < W := by omega
  have hL : 0 < L := by omega
  rw [coord_to_linear_index_decompose]
  unfold decode_linear_index
  have h1 : (x + W * (y + L * z)) % W = x := by
    rw [Nat.add_mul_mod_self_left, Nat.mod_eq_of_lt hx]
  have h2 : (x + W * (y + L * z)) / W = y + L * z := by
    rw [Nat.add_mul_div_left _ _ hW, Nat.div_eq_of_lt hx, Nat.zero_add]
  have h3 : (y + L * z) % L = y := by
    rw [Nat.add_mul_mod_self_left, Nat.mod_eq_of_lt hy]
  have h4 : (x + W * (y + L * z)) / (W * L) = z := by
    rw [← Nat.div_div_eq_div_mul, h2, Nat.add_mul_div_left _ _ hL,
      Nat.div_eq_of_lt hy, Nat.zero_add]
  simp only [h1, h2, h3, h4]

lemma coord_to_linear_index_lt (W L H x y z : Nat) (hx : x < W) (hy : y < L) (hz : z < H) :
    coord_to_linear_index x y z (W, L, H) < W * L * H := by
  unfold coord_to_linear_index
  simp only
  have step1 : z * L * W + y * W + x < (z * L + y + 1) * W := by
    have : (z * L + y + 1) * W = z * L * W + y * W + W := by ring
    omega
  have step2 : (z * L + y + 1) * W ≤ (H * L) * W := by
    apply Nat.mul_le_mul_right
    have : (z + 1) * L ≤ H * L := Nat.mul_le_mul_right L hz
    have : (z + 1) * L = z * L + L := by ring
    nlinarith
  have : (H * L) * W = W * L * H := by ring
  omega

lemma coord_to_linear_index_inj (W L H x y z x2 y2 z2 : Nat)
    (hx : x < W) (hy : y < L) (hx2 : x2 < W) (hy2 : y2 < L)
    (heq : coord_to_linear_index x y z (W, L, H) = coord_to_linear_index x2 y2 z2 (W, L, H)) :
    x = x2 ∧ y = y2 ∧ z = z2 := by
  have h1 := decode_coord_to_linear_index W L H x y z hx hy
  have h2 := decode_coord_to_linear_index W L H x2 y2 z2 hx2 hy2
  rw [heq, h2] at h1
  exact ⟨(Prod.ext_iff.1 h1).1.symm, (Prod.ext_iff.1 (Prod.ext_iff.1 h1).2).1.symm,
    (Prod.ext_iff.1 (Prod.ext_iff.1 h1).2).2.symm⟩

/-- C8: for positive dims (W, L, H) and a valid coordinate (x, y, z),
coord_to_linear_index returns z*(L*W) + y*W + x, and decoding that index by
the inverse plane-major convention recovers exactly (x, y, z). -/
theorem C8_coord_roundtrip (W L H x y z : Nat) (hx : x < W) (hy : y < L) (hz : z < H) :
    coord_to_linear_index x y z (W, L, H) = z * (L * W) + y * W + x ∧
    decode_linear_index (coord_to_linear_index x y z (W, L, H)) (W, L, H) = (x, y, z) := by
  constructor
  · unfold coord_to_linear_index; ring
  · exact decode_coord_to_linear_index W L H x y z hx hy

/-- Witness for C8 at dims (4, 3, 5), coordinate (1, 2, 3). -/
theorem C8_coord_roundtrip_witness :
    coord_to_linear_index 1 2 3 (4, 3, 5) = 3 * (3 * 4) + 2 * 4 + 1 ∧
    decode_linear_index (coord_to_linear_index 1 2 3 (4, 3, 5)) (4, 3, 5) = (1, 2, 3) :=
  C8_coord_roundtrip 4 3 5 1 2 3 (by decide) (by decide) (by decide)

/-- Embedding of one axis of L1Clustering._get_torus_distance of
src/tools/placement_lib.py: min(|a - b|, dim - |a - b|), computed in Int as
numpy does on signed integers. -/
def axis_distance (dim a b : Nat) : Int :=
  min |(a : Int) - (b : Int)| ((dim : Int) - |(a : Int) - (b : Int)|)

/-- Embedding of L1Clustering._get_torus_distance of
src/tools/placement_lib.py for a single pair of coordinates: per-axis
wrap-around distances summed over the three axes, dims = (W, L, H). -/
def torus_l1_distance (dims : Dims) (a b : Coord) : Int :=
  axis_distance dims.1 a.1 b.1 + axis_distance dims.2.1 a.2.1 b.2.1 +
    axis_distance dims.2.2 a.2.2 b.2.2

lemma axis_distance_comm (dim a b : Nat) : axis_distance dim a b = axis_distance dim b a := by
  unfold axis_distance
  rw [abs_sub_comm]

lemma axis_distance_self (dim a : Nat) : axis_distance dim a a = 0 := by
  unfold axis_distance
  simp

/-- C9: the wrap-around L1 distance is symmetric, the distance from any
coordinate to itself is 0, and on a size-1 axis the per-axis contribution
for valid coordinates is always 0. -/
theorem C9_torus_distance_props (dims : Dims) (a b : Coord) :
    torus_l1_distance dims a b = torus_l1_distance dims b a ∧
    torus_l1_distance dims a a = 0 ∧
    (∀ d u v : Nat, d = 1 → u < d → v < d → axis_distance d u v = 0) := by
  refine ⟨?_, ?_, ?_⟩
  · unfold torus_l1_distance
    rw [axis_distance_comm, axis_distance_comm dims.2.1, axis_distance_comm dims.2.2]
  · unfold torus_l1_distance
    rw [axis_distance_self, axis_distance_self, axis_distance_self]
    ring
  · intro d u v hd hu hv
    have hu0 : u = 0 := by omega
    have hv0 : v = 0 := by omega
    rw [hu0, hv0, axis_distance_self]

/-- Witness for C9 at dims (4, 4, 2), a = (1, 2, 0), b = (3, 0, 1), and the
size-1 axis instance d = 1, u = v = 0. -/
theorem C9_torus_distance_props_witness :
    torus_l1_distance (4, 4, 2) (1, 2, 0) (3, 0, 1) =
      torus_l1_distance (4, 4, 2) (3, 0, 1) (1, 2, 0) ∧
    torus_l1_distance (4, 4, 2) (1, 2, 0) (1, 2, 0) = 0 ∧
    axis_distance 1 0 0 = 0 := by
  have h := C9_torus_distance_props (4, 4, 2) (1, 2, 0) (3, 0, 1)
  exact ⟨h.1, h.2.1, h.2.2 1 0 0 rfl (by decide) (by decide)⟩

/-! FirstFit of src/tools/placement_lib.py: occupancy grid, integral
volume, inclusion-exclusion freeness check, placement scan. -/

/-- Occupancy grid of the torus: true = occupied (the numpy grid stores 1),
false = free (0). -/
abbrev Grid := Nat → Nat → Nat → Bool

/-- Numeric occupancy entry of a cell, as stored in the numpy int grid. -/
def occ (g : Grid) (x y z : Nat) : Int := if g x y z then 1 else 0

/-- Exclusive 3D prefix sum of occupancy.  The inclusive integral volume
grid.cumsum(0).cumsum(1).cumsum(2) of FirstFit._get_integral_volume read at
cell (i, j, k) equals pre g (i+1) (j+1) (k+1). -/
def pre (g : Grid) (i j k : Nat) : Int :=
  ∑ x ∈ Finset.range i, ∑ y ∈ Finset.range j, ∑ z ∈ Finset.range k, occ g x y z

/-- Embedding of get_val inside FirstFit._is_free of
src/tools/placement_lib.py: reads the inclusive integral volume, with any
negative index contributing zero. -/
def get_val (g : Grid) (i j k : Int) : Int :=
  if i < 0 ∨ j < 0 ∨ k < 0 then 0
  else pre g (i.toNat + 1) (j.toNat + 1) (k.toNat + 1)

/-- Embedding of FirstFit._is_free of src/tools/placement_lib.py: standard
inclusion-exclusion over the eight corner sums of the box. -/
def is_free (g : Grid) (start size : Coord) : Bool :=
  let x : Int := start.1
  let y : Int := start.2.1
  let z : Int := start.2.2
  let x1 : Int := x + size.1 - 1
  let y1 : Int := y + size.2.1 - 1
  let z1 : Int := z + size.2.2 - 1
  (get_val g x1 y1 z1 - get_val g (x - 1) y1 z1 - get_val g x1 (y - 1) z1
      - get_val g x1 y1 (z - 1) + get_val g (x - 1) (y - 1) z1
      + get_val g (x - 1) y1 (z - 1) + get_val g x1 (y - 1) (z - 1)
      - get_val g (x - 1) (y - 1) (z - 1)) == 0

/-- Total occupancy inside the axis-aligned box at origin (x, y, z) of size
(A, B, C). -/
def boxSum (g : Grid) (x y z A B C : Nat) : Int :=
  ∑ a ∈ Finset.range A, ∑ b ∈ Finset.range B, ∑ c ∈ Finset.range C,
    occ g (x + a) (y + b) (z + c)

/-- Every cell of the box at origin (x, y, z) of size (A, B, C) is free. -/
def BoxFree (g : Grid) (x y z A B C : Nat) : Prop :=
  ∀ a < A, ∀ b < B, ∀ c < C, g (x + a) (y + b) (z + c) = false

lemma diff1 (f : Nat → Int) (z C : Nat) :
    (∑ k ∈ Finset.range (z + C), f k) - (∑ k ∈ Finset.range z, f k)
      = ∑ c ∈ Finset.range C, f (z + c) := by
  rw [Finset.sum_range_add]; ring

lemma diff2 (f : Nat → Nat → Int) (y z B C : Nat) :
    (∑ j ∈ Finset.range (y + B), ∑ k ∈ Finset.range (z + C), f j k)
      - (∑ j ∈ Finset.range y, ∑ k ∈ Finset.range (z + C), f j k)
      - (∑ j ∈ Finset.range (y + B), ∑ k ∈ Finset.range z, f j k)
      + (∑ j ∈ Finset.range y, ∑ k ∈ Finset.range z, f j k)
      = ∑ b ∈ Finset.range B, ∑ c ∈ Finset.range C, f (y + b) (z + c) := by
  have e1 := diff1 (fun j => ∑ k ∈ Finset.range (z + C), f j k) y B
  have e0 := diff1 (fun j => ∑ k ∈ Finset.range z, f j k) y B
  simp only at e1 e0
  have hsplit :
      (∑ j ∈ Finset.range (y + B), ∑ k ∈ Finset.range (z + C), f j k)
        - (∑ j ∈ Finset.range y, ∑ k ∈ Finset.range (z + C), f j k)
        - (∑ j ∈ Finset.range (y + B), ∑ k ∈ Finset.range z, f j k)
        + (∑ j ∈ Finset.range y, ∑ k ∈ Finset.range z, f j k)
      = (∑ b ∈ Finset.range B, ∑ k ∈ Finset.range (z + C), f (y + b) k)
        - (∑ b ∈ Finset.range B, ∑ k ∈ Finset.range z, f (y + b) k) := by
    rw [← e1, ← e0]; ring
  rw [hsplit, ← Finset.sum_sub_distrib]
  exact Finset.sum_congr rfl fun b _ => diff1 (f (y + b)) z C

lemma diff3 (f : Nat → Nat → Nat → Int) (x y z A B C : Nat) :
    (∑ i ∈ Finset.range (x + A), ∑ j ∈ Finset.range (y + B), ∑ k ∈ Finset.range (z + C), f i j k)
      - (∑ i ∈ Finset.range x, ∑ j ∈ Finset.range (y + B), ∑ k ∈ Finset.range (z + C), f i j k)
      - (∑ i ∈ Finset.range (x + A), ∑ j ∈ Finset.range y, ∑ k ∈ Finset.range (z + C), f i j k)
      - (∑ i ∈ Finset.range (x + A), ∑ j ∈ Finset.range (y + B), ∑ k ∈ Finset.range z, f i j k)
      + (∑ i ∈ Finset.range x, ∑ j ∈ Finset.range y, ∑ k ∈ Finset.range (z + C), f i j k)
      + (∑ i ∈ Finset.range x, ∑ j ∈ Finset.range (y + B), ∑ k ∈ Finset.range z, f i j k)
      + (∑ i ∈ Finset.range (x + A), ∑ j ∈ Finset.range y, ∑ k ∈ Finset.range z, f i j k)
      - (∑ i ∈ Finset.range x, ∑ j ∈ Finset.range y, ∑ k ∈ Finset.range z, f i j k)
      = ∑ a ∈ Finset.range A, ∑ b ∈ Finset.range B, ∑ c ∈ Finset.range C,
          f (x + a) (y + b) (z + c) := by
  have e1 := diff1 (fun i => ∑ j ∈ Finset.range (y + B), ∑ k ∈ Finset.range (z + C), f i j k) x A
  have e2 := diff1 (fun i => ∑ j ∈ Finset.range y, ∑ k ∈ Finset.range (z + C), f i j k) x A
  have e3 := diff1 (fun i => ∑ j ∈ Finset.range (y + B), ∑ k ∈ Finset.range z, f i j k) x A
  have e4 := diff1 (fun i => ∑ j ∈ Finset.range y, ∑ k ∈ Finset.range z, f i j k) x A
  simp only at e1 e2 e3 e4
  have hsplit :
      (∑ i ∈ Finset.range (x + A), ∑ j ∈ Finset.range (y + B), ∑ k ∈ Finset.range (z + C), f i j k)
        - (∑ i ∈ Finset.range x, ∑ j ∈ Finset.range (y + B), ∑ k ∈ Finset.range (z + C), f i j k)
        - (∑ i ∈ Finset.range (x + A), ∑ j ∈ Finset.range y, ∑ k ∈ Finset.range (z + C), f i j k)
        - (∑ i ∈ Finset.range (x + A), ∑ j ∈ Finset.range (y + B), ∑ k ∈ Finset.range z, f i j k)
        + (∑ i ∈ Finset.range x, ∑ j ∈ Finset.range y, ∑ k ∈ Finset.range (z + C), f i j k)
        + (∑ i ∈ Finset.range x, ∑ j ∈ Finset.range (y + B), ∑ k ∈ Finset.range z, f i j k)
        + (∑ i ∈ Finset.range (x + A), ∑ j ∈ Finset.range y, ∑ k ∈ Finset.range z, f i j k)
        - (∑ i ∈ Finset.range x, ∑ j ∈ Finset.range y, ∑ k ∈ Finset.range z, f i j k)
      = (∑ a ∈ Finset.range A, ∑ j ∈ Finset.range (y + B), ∑ k ∈ Finset.range (z + C), f (x + a) j k)
        - (∑ a ∈ Finset.range A, ∑ j ∈ Finset.range y, ∑ k ∈ Finset.range (z + C), f (x + a) j k)
        - (∑ a ∈ Finset.range A, ∑ j ∈ Finset.range (y + B), ∑ k ∈ Finset.range z, f (x + a) j k)
        + (∑ a ∈ Finset.range A, ∑ j ∈ Finset.range y, ∑ k ∈ Finset.range z, f (x + a) j k) := by
    rw [← e1, ← e2, ← e3, ← e4]; ring
  rw [hsplit, ← Finset.sum_sub_distrib, ← Finset.sum_sub_distrib, ← Finset.sum_add_distrib]
  exact Finset.sum_congr rfl fun a _ => diff2 (f (x + a)) y z B C

lemma get_val_eq_pre (g : Grid) (u v w : Nat) :
    get_val g ((u : Int) - 1) ((v : Int) - 1) ((w : Int) - 1) = pre g u v w := by
  unfold get_val
  by_cases hu : u = 0
  · subst hu; simp [pre]
  · by_cases hv : v = 0
    · subst hv
      rw [if_pos (Or.inr (Or.inl (by omega)))]
      simp [pre]
    · by_cases hw : w = 0
      · subst hw
        rw [if_pos (Or.inr (Or.inr (by omega)))]
        simp [pre]
      · rw [if_neg (by omega)]
        have e1 : ((u : Int) - 1).toNat + 1 = u := by omega
        have e2 : ((v : Int) - 1).toNat + 1 = v := by omega
        have e3 : ((w : Int) - 1).toNat + 1 = w := by omega
        rw [e1, e2, e3]

lemma occ_nonneg (g : Grid) (x y z : Nat) : 0 ≤ occ g x y z := by
  unfold occ; split <;> simp

lemma occ_eq_zero_iff (g : Grid) (x y z : Nat) : occ g x y z = 0 ↔ g x y z = false := by
  unfold occ; split <;> simp_all

lemma is_free_eq_boxSum (g : Grid) (x y z A B C : Nat) :
    is_free g (x, y, z) (A, B, C) = true ↔ boxSum g x y z A B C = 0 := by
  unfold is_free
  simp only [beq_iff_eq]
  have c1 : (x : Int) + (A : Int) - 1 = ((x + A : Nat) : Int) - 1 := by push_cast; ring
  have c2 : (y : Int) + (B : Int) - 1 = ((y + B : Nat) : Int) - 1 := by push_cast; ring
  have c3 : (z : Int) + (C : Int) - 1 = ((z + C : Nat) : Int) - 1 := by push_cast; ring
  rw [c1, c2, c3]
  rw [get_val_eq_pre g (x + A) (y + B) (z + C), get_val_eq_pre g x (y + B) (z + C),
    get_val_eq_pre g (x + A) y (z + C), get_val_eq_pre g (x + A) (y + B) z,
    get_val_eq_pre g x y (z + C), get_val_eq_pre g x (y + B) z,
    get_val_eq_pre g (x + A) y z, get_val_eq_pre g x y z]
  unfold pre
  rw [diff3 (fun i j k => occ g i j k) x y z A B C]
  rfl

lemma boxSum_eq_zero_iff (g : Grid) (x y z A B C : Nat) :
    boxSum g x y z A B C = 0 ↔ BoxFree g x y z A B C := by
  unfold boxSum BoxFree
  rw [Finset.sum_eq_zero_iff_of_nonneg
    (fun a _ => Finset.sum_nonneg fun b _ => Finset.sum_nonneg fun c _ => occ_nonneg g _ _ _)]
  constructor
  · intro h a ha b hb c hc
    have h2 := h a (Finset.mem_range.2 ha)
    rw [Finset.sum_eq_zero_iff_of_nonneg
      (fun b _ => Finset.sum_nonneg fun c _ => occ_nonneg g _ _ _)] at h2
    have h3 := h2 b (Finset.mem_range.2 hb)
    rw [Finset.sum_eq_zero_iff_of_nonneg (fun c _ => occ_nonneg g _ _ _)] at h3
    exact (occ_eq_zero_iff g _ _ _).1 (h3 c (Finset.mem_range.2 hc))
  · intro h a ha
    apply Finset.sum_eq_zero; intro b hb
    apply Finset.sum_eq_zero; intro c hc
    exact (occ_eq_zero_iff g _ _ _).2
      (h a (Finset.mem_range.1 ha) b (Finset.mem_range.1 hb) c (Finset.mem_range.1 hc))

lemma is_free_iff (g : Grid) (x y z A B C : Nat) :
    is_free g (x, y, z) (A, B, C) = true ↔ BoxFree g x y z A B C :=
  (is_free_eq_boxSum g x y z A B C).trans (boxSum_eq_zero_iff g x y z A B C)

/-- Embedding of FirstFit.find_placement of src/tools/placement_lib.py:
scans origins z, then y, then x, returning the first origin whose A x B x C
box is free.  The Python range(H - C + 1) is empty when C > H, hence the
truncated subtraction H + 1 - C. -/
def find_placement (W L H : Nat) (g : Grid) (A B C : Nat) : Option Coord :=
  (List.range (H + 1 - C)).findSome? fun z =>
    (List.range (L + 1 - B)).findSome? fun y =>
      (List.range (W + 1 - A)).findSome? fun x =>
        if is_free g (x, y, z) (A, B, C) then some (x, y, z) else none

lemma range'_findSome?_none {β : Type} (f : Nat → Option β) :
    ∀ (count start : Nat), (List.range' start count).findSome? f = none ↔
      ∀ i, start ≤ i → i < start + count → f i = none := by
  intro count
  induction count with
  | zero => intro start; simp [List.range']; omega
  | succ m ih =>
    intro start
    rw [List.range'_succ, List.findSome?_cons]
    rcases hf : f start with _ | b
    · simp only
      rw [ih (start + 1)]
      constructor
      · intro h i hi1 hi2
        rcases Nat.eq_or_lt_of_le hi1 with rfl | hlt
        · exact hf
        · exact h i hlt (by omega)
      · intro h i hi1 hi2
        exact h i (by omega) (by omega)
    · simp only
      constructor
      · intro h; exact absurd h (by simp)
      · intro h
        have := h start (Nat.le_refl start) (by omega)
        rw [hf] at this; exact absurd this (by simp)

lemma range'_findSome?_some {β : Type} (f : Nat → Option β) (b : β) :
    ∀ (count start : Nat), (List.range' start count).findSome? f = some b →
      ∃ i, start ≤ i ∧ i < start + count ∧ f i = some b ∧
        ∀ j, start ≤ j → j < i → f j = none := by
  intro count
  induction count with
  | zero => intro start h; simp [List.range'] at h
  | succ m ih =>
    intro start h
    rw [List.range'_succ, List.findSome?_cons] at h
    rcases hf : f start with _ | b2
    · rw [hf] at h
      simp only at h
      obtain ⟨i, hi1, hi2, hi3, hi4⟩ := ih (start + 1) h
      refine ⟨i, by omega, by omega, hi3, ?_⟩
      intro j hj1 hj2
      rcases Nat.eq_or_lt_of_le hj1 with rfl | hlt
      · exact hf
      · exact hi4 j hlt hj2
    · rw [hf] at h
      simp only [Option.some.injEq] at h
      subst h
      exact ⟨start, Nat.le_refl start, by omega, hf, fun j hj1 hj2 => by omega⟩

lemma range_findSome?_none {β : Type} (f : Nat → Option β) (n : Nat) :
    (List.range n).findSome? f = none ↔ ∀ i, i < n → f i = none := by
  rw [List.range_eq_range', range'_findSome?_none]
  constructor
  · intro h i hi; exact h i (Nat.zero_le i) (by omega)
  · intro h i _ hi; exact h i (by omega)

lemma range_findSome?_some {β : Type} (f : Nat → Option β) (n : Nat) (b : β)
    (h : (List.range n).findSome? f = some b) :
    ∃ i, i < n ∧ f i = some b ∧ ∀ j < i, f j = none := by
  rw [List.range_eq_range'] at h
  obtain ⟨i, _, hi2, hi3, hi4⟩ := range'_findSome?_some f b n 0 h
  exact ⟨i, by omega, hi3, fun j hj => hi4 j (Nat.zero_le j) hj⟩

/-- A valid placement origin: the box fits inside the torus (no torus
wrap-around) and every cell of the box is currently free. -/
def OriginOK (W L H : Nat) (g : Grid) (A B C : Nat) (o : Coord) : Prop :=
  o.1 + A ≤ W ∧ o.2.1 + B ≤ L ∧ o.2.2 + C ≤ H ∧ BoxFree g o.1 o.2.1 o.2.2 A B C

/-- Order of the triple-nested scan of find_placement: lexicographic in
(z, y, x), z outermost. -/
def ScanLE (o o2 : Coord) : Prop :=
  o.2.2 < o2.2.2 ∨ (o.2.2 = o2.2.2 ∧
    (o.2.1 < o2.2.1 ∨ (o.2.1 = o2.2.1 ∧ o.1 ≤ o2.1)))

lemma inner_scan_none (W : Nat) (g : Grid) (A B C y z : Nat) :
    (((List.range (W + 1 - A)).findSome? fun x =>
      if is_free g (x, y, z) (A, B, C) then some ((x, y, z) : Coord) else none) = none) ↔
    ∀ x, x + A ≤ W → is_free g (x, y, z) (A, B, C) = false := by
  rw [range_findSome?_none]
  constructor
  · intro h x hx
    have h2 := h x (by omega)
    by_cases hf : is_free g (x, y, z) (A, B, C)
    · rw [if_pos hf] at h2; exact absurd h2 (by simp)
    · simpa using hf
  · intro h x hx
    simp [h x (by omega)]

lemma inner_scan_some (W : Nat) (g : Grid) (A B C y z : Nat) (o : Coord)
    (h : ((List.range (W + 1 - A)).findSome? fun x =>
      if is_free g (x, y, z) (A, B, C) then some ((x, y, z) : Coord) else none) = some o) :
    ∃ x0, o = (x0, y, z) ∧ x0 + A ≤ W ∧ is_free g (x0, y, z) (A, B, C) = true ∧
      ∀ x2 < x0, is_free g (x2, y, z) (A, B, C) = false := by
  obtain ⟨i, hi, hf, hprev⟩ := range_findSome?_some _ _ _ h
  by_cases hfree : is_free g (i, y, z) (A, B, C)
  · rw [if_pos hfree] at hf
    injection hf with hf
    refine ⟨i, hf.symm, by omega, hfree, ?_⟩
    intro x2 hx2
    have h2 := hprev x2 hx2
    by_cases hf2 : is_free g (x2, y, z) (A, B, C)
    · rw [if_pos hf2] at h2; exact absurd h2 (by simp)
    · simpa using hf2
  · rw [if_neg hfree] at hf; exact absurd hf (by simp)

lemma mid_scan_none (W L : Nat) (g : Grid) (A B C z : Nat) :
    (((List.range (L + 1 - B)).findSome? fun y =>
      (List.range (W + 1 - A)).findSome? fun x =>
        if is_free g (x, y, z) (A, B, C) then some ((x, y, z) : Coord) else none) = none) ↔
    ∀ y, y + B ≤ L → ∀ x, x + A ≤ W → is_free g (x, y, z) (A, B, C) = false := by
  rw [range_findSome?_none]
  constructor
  · intro h y hy x hx
    exact (inner_scan_none W g A B C y z).1 (h y (by omega)) x hx
  · intro h y hy
    exact (inner_scan_none W g A B C y z).2 fun x hx => h y (by omega) x hx

lemma mid_scan_some (W L : Nat) (g : Grid) (A B C z : Nat) (o : Coord)
    (h : ((List.range (L + 1 - B)).findSome? fun y =>
      (List.range (W + 1 - A)).findSome? fun x =>
        if is_free g (x, y, z) (A, B, C) then some ((x, y, z) : Coord) else none) = some o) :
    ∃ x0 y0, o = (x0, y0, z) ∧ x0 + A ≤ W ∧ y0 + B ≤ L ∧
      is_free g (x0, y0, z) (A, B, C) = true ∧
      (∀ y2 < y0, ∀ x, x + A ≤ W → is_free g (x, y2, z) (A, B, C) = false) ∧
      (∀ x2 < x0, is_free g (x2, y0, z) (A, B, C) = false) := by
  obtain ⟨i, hi, hf, hprev⟩ := range_findSome?_some _ _ _ h
  obtain ⟨x0, ho, hx0, hfree, hxmin⟩ := inner_scan_some W g A B C i z o hf
  refine ⟨x0, i, ho, hx0, by omega, hfree, ?_, hxmin⟩
  intro y2 hy2 x hx
  exact (inner_scan_none W g A B C y2 z).1 (hprev y2 hy2) x hx

lemma find_placement_none_iff (W L H : Nat) (g : Grid) (A B C : Nat) :
    find_placement W L H g A B C = none ↔
    ∀ o : Coord, ¬ OriginOK W L H g A B C o := by
  unfold find_placement
  rw [range_findSome?_none]
  constructor
  · intro h o hOK
    obtain ⟨h1, h2, h3, h4⟩ := hOK
    have h5 := (mid_scan_none W L g A B C o.2.2).1 (h o.2.2 (by omega)) o.2.1 h2 o.1 h1
    rw [(is_free_iff g o.1 o.2.1 o.2.2 A B C).2 h4] at h5
    exact absurd h5 (by simp)
  · intro h z hz
    apply (mid_scan_none W L g A B C z).2
    intro y hy x hx
    by_cases hf : is_free g (x, y, z) (A, B, C)
    · exact absurd ⟨hx, hy, show z + C ≤ H by omega,
        (is_free_iff g x y z A B C).1 hf⟩ (h (x, y, z))
    · simpa using hf

lemma find_placement_some (W L H : Nat) (g : Grid) (A B C : Nat) (o : Coord)
    (h : find_placement W L H g A B C = some o) :
    OriginOK W L H g A B C o ∧
      ∀ o2 : Coord, OriginOK W L H g A B C o2 → ScanLE o o2 := by
  unfold find_placement at h
  obtain ⟨z0, hz0, hf, hprev⟩ := range_findSome?_some _ _ _ h
  obtain ⟨x0, y0, ho, hx0, hy0, hfree, hymin, hxmin⟩ := mid_scan_some W L g A B C z0 o hf
  subst ho
  have hOK : OriginOK W L H g A B C (x0, y0, z0) :=
    ⟨hx0, hy0, show z0 + C ≤ H by omega, (is_free_iff g x0 y0 z0 A B C).1 hfree⟩
  refine ⟨hOK, ?_⟩
  rintro ⟨x2, y2, z2⟩ ⟨h1, h2, h3, h4⟩
  have hfree2 : is_free g (x2, y2, z2) (A, B, C) = true :=
    (is_free_iff g x2 y2 z2 A B C).2 h4
  unfold ScanLE
  simp only
  rcases Nat.lt_trichotomy z0 z2 with hz | hz | hz
  · exact Or.inl hz
  · subst hz
    rcases Nat.lt_trichotomy y0 y2 with hy | hy | hy
    · exact Or.inr ⟨rfl, Or.inl hy⟩
    · subst hy
      rcases Nat.lt_or_ge x2 x0 with hx | hx
      · rw [hxmin x2 hx] at hfree2; exact absurd hfree2 (by simp)
      · exact Or.inr ⟨rfl, Or.inr ⟨rfl, hx⟩⟩
    · rw [hymin y2 hy x2 h1] at hfree2; exact absurd hfree2 (by simp)
  · have h5 := (mid_scan_none W L g A B C z2).1 (hprev z2 hz) y2 h2 x2 h1
    rw [h5] at hfree2; exact absurd hfree2 (by simp)

/-- C4: for every grid and shape, the prefix-sum inclusion-exclusion check
reports free if and only if every cell of the box is free, and
find_placement returns the first origin in (z, y, x) scan order whose
entire box is free inside the torus, returning none exactly when no such
origin exists. -/
theorem C4_find_placement_first_free (W L H : Nat) (g : Grid) (A B C : Nat) :
    (∀ x y z : Nat, x + A ≤ W → y + B ≤ L → z + C ≤ H →
      (is_free g (x, y, z) (A, B, C) = true ↔ BoxFree g x y z A B C)) ∧
    (∀ o : Coord, find_placement W L H g A B C = some o →
      OriginOK W L H g A B C o ∧ ∀ o2 : Coord, OriginOK W L H g A B C o2 → ScanLE o o2) ∧
    (find_placement W L H g A B C = none ↔ ∀ o : Coord, ¬ OriginOK W L H g A B C o) := by
  refine ⟨fun x y z _ _ _ => is_free_iff g x y z A B C,
    fun o h => find_placement_some W L H g A B C o h,
    find_placement_none_iff W L H g A B C⟩

/-- Witness grid on the 2 x 2 x 2 torus with only cell (0, 0, 0)
occupied. -/
def gEx : Grid := fun x y z => decide (x = 0 ∧ y = 0 ∧ z = 0)

/-- Witness for C4 at the 2 x 2 x 2 torus, grid gEx, shape (1, 1, 1), with
the bound hypotheses discharged at origin (0, 0, 0). -/
theorem C4_find_placement_first_free_witness :
    ((0 + 1 ≤ 2 ∧ 0 + 1 ≤ 2 ∧ 0 + 1 ≤ 2) ∧
      (is_free gEx (0, 0, 0) (1, 1, 1) = true ↔ BoxFree gEx 0 0 0 1 1 1)) ∧
    (find_placement 2 2 2 gEx 1 1 1 = none ↔ ∀ o : Coord, ¬ OriginOK 2 2 2 gEx 1 1 1 o) := by
  have h := C4_find_placement_first_free 2 2 2 gEx 1 1 1
  exact ⟨⟨⟨by decide, by decide, by decide⟩,
    h.1 0 0 0 (by decide) (by decide) (by decide)⟩, h.2.2⟩

/-- Grid after marking every cell of the box occupied: the net effect of
the cell-by-cell mutation loop of FirstFit.allocate. -/
def markBox (g : Grid) (x0 y0 z0 A B C : Nat) : Grid :=
  fun x y z =>
    if x0 ≤ x ∧ x < x0 + A ∧ y0 ≤ y ∧ y < y0 + B ∧ z0 ≤ z ∧ z < z0 + C then true
    else g x y z

/-- Mapping dictionary built by the nested loops of FirstFit.allocate, in
loop order (c slowest, then b, then a): job-local linear index mapped to
torus linear index. -/
def boxMapping (W L H x0 y0 z0 A B C : Nat) : List (Nat × Nat) :=
  (List.range C).flatMap fun c =>
    (List.range B).flatMap fun b =>
      (List.range A).map fun a =>
        (coord_to_linear_index a b c (A, B, C),
         coord_to_linear_index (x0 + a) (y0 + b) (z0 + c) (W, L, H))

/-- Embedding of FirstFit.allocate of src/tools/placement_lib.py: returns
the mapping (none when find_placement fails) together with the updated
occupancy grid. -/
def FirstFit.allocate (W L H : Nat) (g : Grid) (shape : Dims) :
    Option (List (Nat × Nat)) × Grid :=
  match find_placement W L H g shape.1 shape.2.1 shape.2.2 with
  | none => (none, g)
  | some o =>
      (some (boxMapping W L H o.1 o.2.1 o.2.2 shape.1 shape.2.1 shape.2.2),
       markBox g o.1 o.2.1 o.2.2 shape.1 shape.2.1 shape.2.2)

/-- C10: First-Fit treats the grid as a non-wrapping mesh: allocate returns
none whenever the shape exceeds a torus dimension along any axis, whatever
the number of free cells, and whenever allocate returns none the occupancy
grid is left unchanged. -/
theorem C10_firstfit_no_wrap (W L H A B C : Nat) (g : Grid) :
    ((W < A ∨ L < B ∨ H < C) → (FirstFit.allocate W L H g (A, B, C)).1 = none) ∧
    ((FirstFit.allocate W L H g (A, B, C)).1 = none →
      (FirstFit.allocate W L H g (A, B, C)).2 = g) := by
  constructor
  · intro hdim
    have hnone : find_placement W L H g A B C = none := by
      rw [find_placement_none_iff]
      rintro ⟨x, y, z⟩ ⟨h1, h2, h3, _⟩
      simp only at h1 h2 h3
      omega
    simp [FirstFit.allocate, hnone]
  · intro h
    rcases hf : find_placement W L H g A B C with _ | o
    · simp [FirstFit.allocate, hf]
    · simp [FirstFit.allocate, hf] at h

/-- Witness for C10 at the 2 x 2 x 2 torus, empty grid, shape (3, 1, 1). -/
theorem C10_firstfit_no_wrap_witness :
    ((2 < 3 ∨ (2 : Nat) < 1 ∨ (2 : Nat) < 1) ∧
      (FirstFit.allocate 2 2 2 (fun _ _ _ => false) (3, 1, 1)).1 = none) ∧
    (FirstFit.allocate 2 2 2 (fun _ _ _ => false) (3, 1, 1)).2 = (fun _ _ _ => false) := by
  have h := C10_firstfit_no_wrap 2 2 2 3 1 1 (fun _ _ _ => false)
  have h1 : (2 < 3 ∨ (2 : Nat) < 1 ∨ (2 : Nat) < 1) := Or.inl (by decide)
  have h2 := h.1 h1
  exact ⟨⟨h1, h2⟩, h.2 h2⟩

/-- Job-local coordinates enumerated in the loop order of
FirstFit.allocate (c slowest, a fastest). -/
def coordsList (A B C : Nat) : List Coord :=
  (List.range C).flatMap fun c =>
    (List.range B).flatMap fun b =>
      (List.range A).map fun a => (a, b, c)

lemma mem_coordsList (A B C : Nat) (t : Coord) :
    t ∈ coordsList A B C ↔ t.1 < A ∧ t.2.1 < B ∧ t.2.2 < C := by
  unfold coordsList
  simp only [List.mem_flatMap, List.mem_map, List.mem_range]
  constructor
  · rintro ⟨c, hc, b, hb, a, ha, rfl⟩
    exact ⟨ha, hb, hc⟩
  · rintro ⟨h1, h2, h3⟩
    exact ⟨t.2.2, h3, t.2.1, h2, t.1, h1, rfl⟩

lemma coordsList_nodup (A B C : Nat) : (coordsList A B C).Nodup := by
  unfold coordsList
  rw [List.nodup_flatMap]
  constructor
  · intro c _
    rw [List.nodup_flatMap]
    constructor
    · intro b _
      exact (List.nodup_range A).map fun a1 a2 h => congrArg Prod.fst h
    · apply List.Pairwise.imp ?_ (List.pairwise_lt_range B)
      intro b1 b2 hb t ht1 ht2
      obtain ⟨a1, _, rfl⟩ := List.mem_map.1 ht1
      obtain ⟨a2, _, he⟩ := List.mem_map.1 ht2
      have : b2 = b1 := congrArg (fun p => p.2.1) he
      omega
  · apply List.Pairwise.imp ?_ (List.pairwise_lt_range C)
    intro c1 c2 hc t ht1 ht2
    simp only [List.mem_flatMap, List.mem_map] at ht1 ht2
    obtain ⟨b1, _, a1, _, rfl⟩ := ht1
    obtain ⟨b2, _, a2, _, he⟩ := ht2
    have : c2 = c1 := congrArg (fun p => p.2.2) he
    omega

lemma boxMapping_values_eq (W L H x0 y0 z0 A B C : Nat) :
    (boxMapping W L H x0 y0 z0 A B C).map Prod.snd =
      (coordsList A B C).map fun t =>
        coord_to_linear_index (x0 + t.1) (y0 + t.2.1) (z0 + t.2.2) (W, L, H) := by
  unfold boxMapping coordsList
  simp only [List.map_flatMap, List.map_map]
  rfl

/-- The cell with torus linear index t is occupied in the grid. -/
def occupiedIdx (W L : Nat) (g : Grid) (t : Nat) : Prop :=
  g (t % W) ((t / W) % L) (t / (W * L)) = true

lemma occupiedIdx_enc (W L H : Nat) (g : Grid) (x y z : Nat) (hx : x < W) (hy : y < L) :
    occupiedIdx W L g (coord_to_linear_index x y z (W, L, H)) ↔ g x y z = true := by
  have h := decode_coord_to_linear_index W L H x y z hx hy
  unfold decode_linear_index at h
  simp only at h
  rw [Prod.mk.injEq, Prod.mk.injEq] at h
  obtain ⟨h1, h2, h3⟩ := h
  unfold occupiedIdx
  rw [h1, h2, h3]

lemma markBox_keeps (g : Grid) (x0 y0 z0 A B C x y z : Nat) (h : g x y z = true) :
    markBox g x0 y0 z0 A B C x y z = true := by
  unfold markBox
  split <;> simp [h]

lemma markBox_in (g : Grid) (x0 y0 z0 A B C a b c : Nat)
    (ha : a < A) (hb : b < B) (hc : c < C) :
    markBox g x0 y0 z0 A B C (x0 + a) (y0 + b) (z0 + c) = true := by
  unfold markBox
  rw [if_pos]
  exact ⟨by omega, by omega, by omega, by omega, by omega, by omega⟩

/-- A placement table entry: ((job name, job-local index), torus linear
index), embedding the Python key f-string "{name}-{j_idx}". -/
abbrev Entry := (String × Nat) × Nat

/-- Invariant of the accumulated First-Fit placement state: every assigned
torus index is in range and marked occupied in the grid, and no torus index
appears twice in the table. -/
def TableInv (W L H : Nat) (g : Grid) (tab : List Entry) : Prop :=
  (∀ e ∈ tab, e.2 < W * L * H ∧ occupiedIdx W L g e.2) ∧ (tab.map Prod.snd).Nodup

/-- Embedding of one iteration of the job loop of firstfit_placement of
src/tools/place.py: allocate the job, fail on a Python-falsy mapping (None
or the empty dict), otherwise append the new entries in increasing
job-index order, which is the order boxMapping lists them. -/
def firstfit_step (W L H : Nat) (st : Grid × List Entry) (job : String × Dims) :
    Except String (Grid × List Entry) :=
  match FirstFit.allocate W L H st.1 job.2 with
  | (none, _) => Except.error "Failed to place job."
  | (some m, g2) =>
      if m = [] then Except.error "Failed to place job."
      else Except.ok (g2, st.2 ++ m.map fun p => ((job.1, p.1), p.2))

/-- Embedding of firstfit_placement of src/tools/place.py: fold the job
list over firstfit_step starting from the empty grid and empty table. -/
def firstfit_placement (torus_dims : Dims) (jobs : List (String × Dims)) :
    Except String (List Entry) :=
  (jobs.foldlM (firstfit_step torus_dims.1 torus_dims.2.1 torus_dims.2.2)
    ((fun _ _ _ => false : Grid), ([] : List Entry))).map Prod.snd

lemma new_value_mem (W L H x0 y0 z0 A B C : Nat) (v : Nat)
    (hv : v ∈ (boxMapping W L H x0 y0 z0 A B C).map Prod.snd) :
    ∃ t : Coord, t.1 < A ∧ t.2.1 < B ∧ t.2.2 < C ∧
      v = coord_to_linear_index (x0 + t.1) (y0 + t.2.1) (z0 + t.2.2) (W, L, H) := by
  rw [boxMapping_values_eq] at hv
  obtain ⟨t, ht, rfl⟩ := List.mem_map.1 hv
  have hb := (mem_coordsList A B C t).1 ht
  exact ⟨t, hb.1, hb.2.1, hb.2.2, rfl⟩

lemma boxMapping_values_nodup (W L H x0 y0 z0 A B C : Nat)
    (hx0 : x0 + A ≤ W) (hy0 : y0 + B ≤ L) :
    ((boxMapping W L H x0 y0 z0 A B C).map Prod.snd).Nodup := by
  rw [boxMapping_values_eq]
  apply List.Nodup.map_on ?_ (coordsList_nodup A B C)
  intro t1 ht1 t2 ht2 heq
  have b1 := (mem_coordsList A B C t1).1 ht1
  have b2 := (mem_coordsList A B C t2).1 ht2
  obtain ⟨e1, e2, e3⟩ := coord_to_linear_index_inj W L H _ _ _ _ _ _
    (by omega) (by omega) (by omega) (by omega) heq
  exact Prod.ext_iff.2 ⟨by omega, Prod.ext_iff.2 ⟨by omega, by omega⟩⟩

lemma boxMapping_values_free (W L H x0 y0 z0 A B C : Nat) (g : Grid)
    (hx0 : x0 + A ≤ W) (hy0 : y0 + B ≤ L)
    (hfree : BoxFree g x0 y0 z0 A B C) (v : Nat)
    (hv : v ∈ (boxMapping W L H x0 y0 z0 A B C).map Prod.snd) :
    ¬ occupiedIdx W L g v := by
  obtain ⟨t, h1, h2, h3, rfl⟩ := new_value_mem W L H x0 y0 z0 A B C v hv
  rw [occupiedIdx_enc W L H g _ _ _ (by omega) (by omega)]
  rw [hfree t.1 h1 t.2.1 h2 t.2.2 h3]
  simp

lemma firstfit_step_inv (W L H : Nat) (g : Grid) (tab : List Entry)
    (job : String × Dims) (hinv : TableInv W L H g tab)
    (g2 : Grid) (tab2 : List Entry)
    (hstep : firstfit_step W L H (g, tab) job = Except.ok (g2, tab2)) :
    TableInv W L H g2 tab2 := by
  rcases job with ⟨name, A, B, C⟩
  rcases hfp : find_placement W L H g A B C with _ | o
  · simp [firstfit_step, FirstFit.allocate, hfp] at hstep
  · obtain ⟨x0, y0, z0⟩ := o
    obtain ⟨hx0, hy0, hz0, hfree⟩ := (find_placement_some W L H g A B C _ hfp).1
    simp only at hx0 hy0 hz0 hfree
    by_cases hm : boxMapping W L H x0 y0 z0 A B C = []
    · simp [firstfit_step, FirstFit.allocate, hfp, hm] at hstep
    · have hred : firstfit_step W L H (g, tab) (name, (A, B, C)) =
          Except.ok (markBox g x0 y0 z0 A B C,
            tab ++ (boxMapping W L H x0 y0 z0 A B C).map fun p => ((name, p.1), p.2)) := by
        simp [firstfit_step, FirstFit.allocate, hfp, hm]
      rw [hred] at hstep
      injection hstep with hstep
      rw [Prod.mk.injEq] at hstep
      obtain ⟨hg2, htab2⟩ := hstep
      subst hg2
      subst htab2
      have hmapnew : (((boxMapping W L H x0 y0 z0 A B C).map
          fun p => ((name, p.1), p.2)).map Prod.snd)
            = (boxMapping W L H x0 y0 z0 A B C).map Prod.snd := by
        rw [List.map_map]; rfl
      constructor
      · intro e he
        rcases List.mem_append.1 he with hold | hnew
        · obtain ⟨hlt, hocc⟩ := hinv.1 e hold
          exact ⟨hlt, markBox_keeps g x0 y0 z0 A B C _ _ _ hocc⟩
        · have hv : e.2 ∈ (boxMapping W L H x0 y0 z0 A B C).map Prod.snd := by
            rw [← hmapnew]
            exact List.mem_map_of_mem Prod.snd hnew
          obtain ⟨t, h1, h2, h3, hve⟩ := new_value_mem W L H x0 y0 z0 A B C e.2 hv
          constructor
          · rw [hve]
            exact coord_to_linear_index_lt W L H _ _ _ (by omega) (by omega) (by omega)
          · rw [hve, occupiedIdx_enc W L H _ _ _ _ (by omega) (by omega)]
            exact markBox_in g x0 y0 z0 A B C t.1 t.2.1 t.2.2 h1 h2 h3
      · rw [List.map_append, hmapnew, List.nodup_append]
        refine ⟨hinv.2, boxMapping_values_nodup W L H x0 y0 z0 A B C hx0 hy0, ?_⟩
        intro v hv1 hv2
        obtain ⟨e, he, hev⟩ := List.mem_map.1 hv1
        have hocc := (hinv.1 e he).2
        rw [hev] at hocc
        exact boxMapping_values_free W L H x0 y0 z0 A B C g hx0 hy0 hfree v hv2 hocc

lemma firstfit_fold_inv (W L H : Nat) :
    ∀ (jobs : List (String × Dims)) (g : Grid) (tab : List Entry),
      TableInv W L H g tab →
      ∀ st2, jobs.foldlM (firstfit_step W L H) (g, tab) = Except.ok st2 →
      TableInv W L H st2.1 st2.2 := by
  intro jobs
  induction jobs with
  | nil =>
    intro g tab hinv st2 h
    simp only [List.foldlM_nil, pure, Except.pure] at h
    injection h with h
    rw [← h]
    exact hinv
  | cons j js ih =>
    intro g tab hinv st2 h
    rw [List.foldlM_cons] at h
    rcases hstep : firstfit_step W L H (g, tab) j with e | st1
    · rw [hstep] at h
      simp only [bind, Except.bind] at h
      exact absurd h (by simp)
    · rw [hstep] at h
      simp only [bind, Except.bind] at h
      exact ih st1.1 st1.2 (firstfit_step_inv W L H g tab j hinv st1.1 st1.2 hstep) st2 h

/-- C1: for a sequence of jobs of total volume at most the torus volume,
whenever First-Fit placement from the empty grid succeeds, every assigned
value of the placement table is a valid torus linear index in
[0, W*L*H) and no torus index is assigned to two distinct keys. -/
theorem C1_firstfit_values_valid_disjoint (W L H : Nat) (jobs : List (String × Dims))
    (tab : List Entry)
    (hvol : (jobs.map fun j => j.2.1 * j.2.2.1 * j.2.2.2).sum ≤ W * L * H)
    (htab : firstfit_placement (W, L, H) jobs = Except.ok tab) :
    (∀ e ∈ tab, e.2 < W * L * H) ∧ (tab.map Prod.snd).Nodup := by
  have htab2 : (jobs.foldlM (firstfit_step W L H)
      ((fun _ _ _ => false : Grid), ([] : List Entry))).map Prod.snd = Except.ok tab := htab
  rcases hfold : jobs.foldlM (firstfit_step W L H)
      ((fun _ _ _ => false : Grid), ([] : List Entry)) with e | st
  · rw [hfold] at htab2
    simp [Except.map] at htab2
  · rw [hfold] at htab2
    simp only [Except.map] at htab2
    injection htab2 with htab2
    have hinv0 : TableInv W L H (fun _ _ _ => false) [] := ⟨by simp, List.nodup_nil⟩
    have h := firstfit_fold_inv W L H jobs _ _ hinv0 st hfold
    rw [← htab2]
    exact ⟨fun e he => (h.1 e he).1, h.2⟩

/-- Witness for C1 on the 2 x 2 x 2 torus with jobs A of shape (2, 1, 1)
and B of shape (1, 2, 1), total volume 4 of 8. -/
theorem C1_firstfit_values_valid_disjoint_witness :
    ((([("A", ((2, 1, 1) : Dims)), ("B", (1, 2, 1))].map
        fun j => j.2.1 * j.2.2.1 * j.2.2.2).sum ≤ 2 * 2 * 2) ∧
      firstfit_placement (2, 2, 2) [("A", (2, 1, 1)), ("B", (1, 2, 1))] =
        Except.ok [(("A", 0), 0), (("A", 1), 1), (("B", 0), 4), (("B", 1), 6)]) ∧
    ((∀ e ∈ ([(("A", 0), 0), (("A", 1), 1), (("B", 0), 4), (("B", 1), 6)] : List Entry),
        e.2 < 2 * 2 * 2) ∧
      (([(("A", 0), 0), (("A", 1), 1), (("B", 0), 4), (("B", 1), 6)] : List Entry).map
        Prod.snd).Nodup) := by
  have hvol : (([("A", ((2, 1, 1) : Dims)), ("B", (1, 2, 1))].map
      fun j => j.2.1 * j.2.2.1 * j.2.2.2).sum ≤ 2 * 2 * 2) := by decide
  have htab : firstfit_placement (2, 2, 2) [("A", (2, 1, 1)), ("B", (1, 2, 1))] =
      Except.ok [(("A", 0), 0), (("A", 1), 1), (("B", 0), 4), (("B", 1), 6)] := by rfl
  exact ⟨⟨hvol, htab⟩,
    C1_firstfit_values_valid_disjoint 2 2 2 [("A", (2, 1, 1)), ("B", (1, 2, 1))] _ hvol htab⟩

/-! Driver logic of src/tools/place.py: capacity validation, block
decomposition, and policy dispatch. -/

/-- Volume prod(dims) of a shape, as summed in the __main__ block of
src/tools/place.py. -/
def job_volume (d : Dims) : Nat := d.1 * d.2.1 * d.2.2

/-- Enumeration of the Python range(0, stop, step) for positive step. -/
def stride_range (stop step : Nat) : List Nat :=
  (List.range ((stop + step - 1) / step)).map (· * step)

/-- Embedding of init_torus_blocks of src/tools/place.py: fails unless the
block size divides every torus dimension, then lists the BxBxB blocks of
torus node indices, blocks and nodes both in plane-major order. -/
def init_torus_blocks (dims : Dims) (B : Nat) : Except String (List (List Nat)) :=
  if dims.1 % B ≠ 0 ∨ dims.2.1 % B ≠ 0 ∨ dims.2.2 % B ≠ 0 then
    Except.error "Block size must divide each torus dimension exactly."
  else
    Except.ok ((stride_range dims.2.2 B).flatMap fun z_start =>
      (stride_range dims.2.1 B).flatMap fun y_start =>
        (stride_range dims.1 B).map fun x_start =>
          (List.range B).flatMap fun dz =>
            (List.range B).flatMap fun dy =>
              (List.range B).map fun dx =>
                (z_start + dz) * (dims.2.1 * dims.1) + (y_start + dy) * dims.1
                  + (x_start + dx))

/-- Embedding of init_job_blocks of src/tools/place.py: decomposes each job
shape (D, T, P) into BxBxB blocks of job-local plane-major node indices.
The Python function performs no divisibility check on the job shape. -/
def init_job_blocks (jobs : List (String × Dims)) (B : Nat) :
    List (String × List (List Nat)) :=
  jobs.map fun j =>
    (j.1,
      (stride_range j.2.2.2 B).flatMap fun p_start =>
        (stride_range j.2.2.1 B).flatMap fun t_start =>
          (stride_range j.2.1 B).map fun d_start =>
            (List.range B).flatMap fun dp =>
              (List.range B).flatMap fun dt =>
                (List.range B).map fun dd =>
                  (p_start + dp) * (j.2.2.1 * j.2.1) + (t_start + dt) * j.2.1
                    + (d_start + dd))

/-- Embedding of the block-size validation loop of the __main__ block of
src/tools/place.py: for non-firstfit policies the block size must not
exceed the smallest dimension of any job. -/
def validate_block_size (jobs : List (String × Dims)) (block_size : Nat) :
    Except String Unit :=
  if jobs.all fun j => decide (block_size ≤ min j.2.1 (min j.2.2.1 j.2.2.2)) then
    Except.ok ()
  else Except.error "Error: Block size is greater than the smallest dimension."

/-- Embedding of the per-job inner loop of block_placement of
src/tools/place.py with the --random flag unset: each job block pops the
first remaining torus block and zips job node indices with torus node
indices; popping from an empty list is Python IndexError, hence none. -/
def assign_job_blocks (name : String) :
    List (List Nat) → List (List Nat) →
      Option (List ((String × Nat) × Nat) × List (List Nat))
  | [], tblocks => some ([], tblocks)
  | _ :: _, [] => none
  | jb :: rest, tb :: ts =>
      match assign_job_blocks name rest ts with
      | none => none
      | some (entries, remaining) =>
          some (((jb.zip tb).map fun p => ((name, p.1), p.2)) ++ entries, remaining)

def block_placement_go :
    List (String × List (List Nat)) → List (List Nat) →
      Option (List ((String × Nat) × Nat))
  | [], _ => some []
  | (name, jbs) :: rest, tblocks =>
      match assign_job_blocks name jbs tblocks with
      | none => none
      | some (entries, remaining) =>
          match block_placement_go rest remaining with
          | none => none
          | some more => some (entries ++ more)

/-- Embedding of block_placement of src/tools/place.py with the --random
flag unset: jobs are processed in sorted name order, each popping torus
blocks from the front. -/
def block_placement (torus_blocks : List (List Nat))
    (job_blocks : List (String × List (List Nat))) :
    Option (List ((String × Nat) × Nat)) :=
  block_placement_go (job_blocks.mergeSort fun a b => decide (a.1 ≤ b.1)) torus_blocks

/-- Embedding of the __main__ driver of src/tools/place.py (with the
--random flag unset): capacity validation first, then the firstfit path or
the block-decomposition path. -/
def place_main (torus_dims : Dims) (jobs : List (String × Dims))
    (policy : String) (block_size : Nat) :
    Except String (List Entry) :=
  let total_job_size := (jobs.map fun j => job_volume j.2).sum
  let torus_size := job_volume torus_dims
  if total_job_size > torus_size then
    Except.error "Error: Total job nodes exceed torus capacity."
  else if policy = "firstfit" then
    firstfit_placement torus_dims jobs
  else
    match validate_block_size jobs block_size with
    | Except.error e => Except.error e
    | Except.ok _ =>
        match init_torus_blocks torus_dims block_size with
        | Except.error e => Except.error e
        | Except.ok torus_blocks =>
            match block_placement torus_blocks (init_job_blocks jobs block_size) with
            | none => Except.error "IndexError: pop from empty list"
            | some placement => Except.ok placement

/-- C5: whenever the total requested job volume exceeds the torus volume,
the driver fails with the capacity error before attempting any allocation,
for every policy. -/
theorem C5_capacity_error (torus_dims : Dims) (jobs : List (String × Dims))
    (policy : String) (block_size : Nat)
    (h : (jobs.map fun j => job_volume j.2).sum > job_volume torus_dims) :
    place_main torus_dims jobs policy block_size =
      Except.error "Error: Total job nodes exceed torus capacity." := by
  simp only [place_main]
  rw [if_pos h]

/-- Witness for C5: job set of total volume 65 on the 64-node 4 x 4 x 4
torus. -/
theorem C5_capacity_error_witness :
    (([("A", ((4, 4, 4) : Dims)), ("B", (1, 1, 1))].map
        fun j => job_volume j.2).sum > job_volume (4, 4, 4)) ∧
    place_main (4, 4, 4) [("A", (4, 4, 4)), ("B", (1, 1, 1))] "firstfit" 2 =
      Except.error "Error: Total job nodes exceed torus capacity." := by
  have h : (([("A", ((4, 4, 4) : Dims)), ("B", (1, 1, 1))].map
      fun j => job_volume j.2).sum > job_volume (4, 4, 4)) := by decide
  exact ⟨h, C5_capacity_error (4, 4, 4) [("A", (4, 4, 4)), ("B", (1, 1, 1))] "firstfit" 2 h⟩

/-- C3 (code-bug exhibit): with job A of shape (3, 2, 2) and block size 2
on the 4 x 4 x 4 torus, the driver validation passes (block size at most
the smallest job dimension), the torus decomposition succeeds, yet
init_job_blocks silently emits the job-local node index 12 for a job of
volume 12 (valid local indices are 0..11) instead of aborting with a
configuration error; its two blocks also overlap (index 3 is in both). -/
theorem C3_no_job_divisibility_abort :
    validate_block_size [("A", (3, 2, 2))] 2 = Except.ok () ∧
    (init_torus_blocks (4, 4, 4) 2).toOption.isSome = true ∧
    init_job_blocks [("A", (3, 2, 2))] 2 =
      [("A", [[0, 1, 3, 4, 6, 7, 9, 10], [2, 3, 5, 6, 8, 9, 11, 12]])] ∧
    ¬ 12 < job_volume (3, 2, 2) := by
  refine ⟨rfl, rfl, rfl, by decide⟩

/-! L1Clustering of src/tools/placement_lib.py. -/

/-- Coordinate stored at position i of the flattened coordinate array
L1Clustering.coords (numpy C-order over (W, L, H), z varying fastest):
i = x*(L*H) + y*H + z. -/
def coordOfFlat (L H i : Nat) : Coord := (i / (L * H), (i / H) % L, i % H)

/-- Flattened numpy indices of the free cells in ascending order, as
computed by np.where(self.grid.flatten() == 0)[0]. -/
def idle_indices (W L H : Nat) (g : Grid) : List Nat :=
  (List.range (W * L * H)).filter fun i =>
    !g (coordOfFlat L H i).1 (coordOfFlat L H i).2.1 (coordOfFlat L H i).2.2

/-- Modelled after the documented contract of np.argpartition of the
external numpy library: np.argpartition(a, k-1)[:k] yields the positions
of k smallest entries of a, with ties and internal order unspecified by
numpy; modelled by sorting positions by value and then position and taking
the first k. -/
def argpartition_take (a : List Int) (k : Nat) : List Nat :=
  (List.insertionSort
    (fun i j => a.getD i 0 < a.getD j 0 ∨ (a.getD i 0 = a.getD j 0 ∧ i ≤ j))
    (List.range a.length)).take k

/-- Positions of the k selected idle cells in the idle list: the np.arange
branch of L1Clustering.allocate when every idle cell is selected, the
argpartition branch otherwise. -/
def select_k (idle_dist : List Int) (k : Nat) : List Nat :=
  if idle_dist.length = k then List.range k
  else argpartition_take idle_dist k

/-- Distances of all idle cells to a candidate center, the array
distances[idle_indices] of L1Clustering.allocate. -/
def idle_distances (dims : Dims) (idle : List Nat) (center_idx : Nat) : List Int :=
  idle.map fun i =>
    torus_l1_distance dims (coordOfFlat dims.2.1 dims.2.2 i)
      (coordOfFlat dims.2.1 dims.2.2 center_idx)

/-- One iteration of the center loop of L1Clustering.allocate: the cost of
the selected k idle cells and their flat indices. -/
def l1_center_eval (dims : Dims) (idle : List Nat) (k : Nat) (center_idx : Nat) :
    Int × List Nat :=
  let d := idle_distances dims idle center_idx
  let sel := select_k d k
  ((sel.map fun p => d.getD p 0).sum, sel.map fun p => idle.getD p 0)

/-- Sampled candidate centers idle_indices[::step] with
step = max(1, len(idle_indices) // 100). -/
def centers_sample (idle : List Nat) : List Nat :=
  (List.range ((idle.length + max 1 (idle.length / 100) - 1) / max 1 (idle.length / 100))).map
    fun m => idle.getD (m * max 1 (idle.length / 100)) 0

/-- Best-candidate update of the center loop: a strictly smaller cost
replaces the incumbent, so the first minimum wins ties. -/
def l1_step (dims : Dims) (idle : List Nat) (k : Nat)
    (best : Option (Int × List Nat)) (c : Nat) : Option (Int × List Nat) :=
  match best with
  | none => some (l1_center_eval dims idle k c)
  | some (bc, bs) =>
      if (l1_center_eval dims idle k c).1 < bc then some (l1_center_eval dims idle k c)
      else some (bc, bs)

/-- Result of the center loop of L1Clustering.allocate: best cost and best
selection, none when no center was evaluated. -/
def l1_best (dims : Dims) (idle : List Nat) (k : Nat) : Option (Int × List Nat) :=
  (centers_sample idle).foldl (l1_step dims idle k) none

/-- Grid after marking the cells of the given flat indices occupied. -/
def markCells (L H : Nat) (g : Grid) (cells : List Nat) : Grid :=
  fun x y z =>
    if cells.any fun i => decide (coordOfFlat L H i = (x, y, z)) then true else g x y z

/-- Embedding of L1Clustering.allocate of src/tools/placement_lib.py:
mapping from job-local index to torus linear index (none on failure)
together with the updated grid.  The best selection is sorted (by flat
index, as sorted() sorts the numpy flat indices) before assignment. -/
def L1Clustering.allocate (W L H : Nat) (g : Grid) (shape : Dims) :
    Option (List (Nat × Nat)) × Grid :=
  if (idle_indices W L H g).length < shape.1 * shape.2.1 * shape.2.2 then (none, g)
  else
    match l1_best (W, L, H) (idle_indices W L H g) (shape.1 * shape.2.1 * shape.2.2) with
    | none => (none, g)
    | some (_, best_selection) =>
        (some (((List.insertionSort (· ≤ ·) best_selection).enum).map fun p =>
          (p.1, coord_to_linear_index (coordOfFlat L H p.2).1 (coordOfFlat L H p.2).2.1
            (coordOfFlat L H p.2).2.2 (W, L, H))),
         markCells L H g (List.insertionSort (· ≤ ·) best_selection))

lemma coordOfFlat_reconstruct (L H i : Nat) :
    (coordOfFlat L H i).1 * (L * H) + (coordOfFlat L H i).2.1 * H + (coordOfFlat L H i).2.2
      = i := by
  unfold coordOfFlat
  simp only
  have h2 : i / H % L = i % (H * L) / H := (Nat.mod_mul_right_div_self i H L).symm
  have h3 : i % (H * L) % H = i % H := Nat.mod_mod_of_dvd i ⟨L, rfl⟩
  have h4 : i % (H * L) / H * H + i % (H * L) % H = i % (H * L) := by
    rw [Nat.mul_comm]
    exact Nat.div_add_mod _ H
  have hcomm : H * L = L * H := Nat.mul_comm H L
  rw [h2, ← h3, Nat.add_assoc, h4, hcomm, Nat.mul_comm (i / (L * H)) (L * H)]
  exact Nat.div_add_mod i (L * H)

lemma coordOfFlat_inj (L H i j : Nat) (h : coordOfFlat L H i = coordOfFlat L H j) :
    i = j := by
  have hi := coordOfFlat_reconstruct L H i
  have hj := coordOfFlat_reconstruct L H j
  rw [h] at hi
  omega

lemma map_getD_nodup (l : List Nat) (ps : List Nat) (hl : l.Nodup) (hps : ps.Nodup)
    (hb : ∀ p ∈ ps, p < l.length) : (ps.map fun p => l.getD p 0).Nodup := by
  apply List.Nodup.map_on ?_ hps
  intro p1 h1 p2 h2 heq
  have hb1 := hb p1 h1
  have hb2 := hb p2 h2
  rw [List.getD_eq_getElem l 0 hb1, List.getD_eq_getElem l 0 hb2] at heq
  have h3 : l.get ⟨p1, hb1⟩ = l.get ⟨p2, hb2⟩ := by
    rw [List.get_eq_getElem, List.get_eq_getElem]
    exact heq
  have h4 := (hl.get_inj_iff).1 h3
  exact congrArg Fin.val h4

lemma select_k_nodup (d : List Int) (k : Nat) : (select_k d k).Nodup := by
  unfold select_k
  split
  · exact List.nodup_range k
  · unfold argpartition_take
    exact List.Nodup.sublist (List.take_sublist k _)
      ((List.perm_insertionSort _ _).nodup_iff.2 (List.nodup_range _))

lemma select_k_bounds (d : List Int) (k : Nat) (hk : k ≤ d.length) :
    ∀ p ∈ select_k d k, p < d.length := by
  unfold select_k
  split
  · intro p hp
    have := List.mem_range.1 hp
    omega
  · intro p hp
    unfold argpartition_take at hp
    have h1 := List.mem_of_mem_take hp
    exact List.mem_range.1 ((List.perm_insertionSort _ _).mem_iff.1 h1)

lemma l1_center_eval_sel_nodup (dims : Dims) (idle : List Nat) (k : Nat) (c : Nat)
    (hk : k ≤ idle.length) (hnd : idle.Nodup) :
    ((l1_center_eval dims idle k c).2).Nodup := by
  unfold l1_center_eval
  simp only
  apply map_getD_nodup idle _ hnd (select_k_nodup _ _)
  intro p hp
  have hlen : (idle_distances dims idle c).length = idle.length := List.length_map _ _
  have := select_k_bounds (idle_distances dims idle c) k (by omega) p hp
  omega

lemma l1_foldl_nodup (dims : Dims) (idle : List Nat) (k : Nat)
    (hk : k ≤ idle.length) (hnd : idle.Nodup) :
    ∀ (centers : List Nat) (acc : Option (Int × List Nat)),
      (∀ p, acc = some p → p.2.Nodup) →
      ∀ r, centers.foldl (l1_step dims idle k) acc = some r → r.2.Nodup := by
  intro centers
  induction centers with
  | nil =>
    intro acc hacc r h
    rw [List.foldl_nil] at h
    exact hacc r h
  | cons c cs ih =>
    intro acc hacc r h
    rw [List.foldl_cons] at h
    refine ih (l1_step dims idle k acc c) ?_ r h
    intro p hp
    unfold l1_step at hp
    cases acc with
    | none =>
      simp only at hp
      injection hp with hp
      rw [← hp]
      exact l1_center_eval_sel_nodup dims idle k c hk hnd
    | some q =>
      rcases q with ⟨bc, bs⟩
      simp only at hp
      split at hp
      · injection hp with hp
        rw [← hp]
        exact l1_center_eval_sel_nodup dims idle k c hk hnd
      · injection hp with hp
        rw [← hp]
        exact hacc (bc, bs) rfl

lemma idle_indices_nodup (W L H : Nat) (g : Grid) : (idle_indices W L H g).Nodup :=
  List.Nodup.filter _ (List.nodup_range _)

lemma idle_indices_sorted (W L H : Nat) (g : Grid) :
    (idle_indices W L H g).Pairwise (· < ·) :=
  List.Pairwise.filter _ (List.pairwise_lt_range _)

/-- Counterexample grid for C2 on the 2 x 2 x 2 torus: every cell occupied
except (0, 0, 1) and (1, 0, 0). -/
def gC2 : Grid := fun x y z =>
  !decide ((x = 0 ∧ y = 0 ∧ z = 1) ∨ (x = 1 ∧ y = 0 ∧ z = 0))

/-- C2 counterexample: with only cells (0, 0, 1) and (1, 0, 0) free on the
2 x 2 x 2 torus, allocate for shape (2, 1, 1) returns the mapping
0 -> torus index 4 and 1 -> torus index 1, so the values are not ordered by
torus linear index: mapping[0] > mapping[1] although 0 < 1.  The selection
is sorted by the numpy flattened index x*(L*H) + y*H + z instead. -/
theorem C2_counterexample_not_torus_sorted :
    (L1Clustering.allocate 2 2 2 gC2 (2, 1, 1)).1 = some [(0, 4), (1, 1)] ∧
    ¬ (4 : Nat) < 1 :=
  ⟨by rfl, by decide⟩

lemma insertionSort_le_strict_sorted (bs : List Nat) (hnd : bs.Nodup) :
    (List.insertionSort (· ≤ ·) bs).Pairwise (· < ·) := by
  have hsorted : (List.insertionSort (· ≤ ·) bs).Pairwise (· ≤ ·) :=
    List.sorted_insertionSort (· ≤ ·) bs
  have hnd2 : (List.insertionSort (· ≤ ·) bs).Nodup :=
    (List.perm_insertionSort _ bs).nodup_iff.2 hnd
  have hand := hsorted.and hnd2
  exact hand.imp fun hab => by omega

/-- C2 amended: in L1-Clustering allocate, the selected cells are sorted by
the numpy flattened grid index x*(L*H) + y*H + z (z fastest), not by the
torus linear index: every returned mapping enumerates a strictly increasing
list of flat indices, mapping job-local index i to the torus linear index
of the i-th cell in that flat-index order. -/
theorem C2_amended_sorted_by_flat_index (W L H : Nat) (g : Grid) (shape : Dims)
    (m : List (Nat × Nat))
    (h : (L1Clustering.allocate W L H g shape).1 = some m) :
    ∃ sel : List Nat, sel.Pairwise (· < ·) ∧
      m = sel.enum.map fun p =>
        (p.1, coord_to_linear_index (coordOfFlat L H p.2).1 (coordOfFlat L H p.2).2.1
          (coordOfFlat L H p.2).2.2 (W, L, H)) := by
  unfold L1Clustering.allocate at h
  by_cases hlen :
      (idle_indices W L H g).length < shape.1 * shape.2.1 * shape.2.2
  · rw [if_pos hlen] at h
    simp at h
  · rw [if_neg hlen] at h
    rcases hb : l1_best (W, L, H) (idle_indices W L H g)
        (shape.1 * shape.2.1 * shape.2.2) with _ | p
    · rw [hb] at h
      simp at h
    · rcases p with ⟨bc, bs⟩
      rw [hb] at h
      simp only at h
      injection h with h
      have hnd_bs : bs.Nodup := by
        refine l1_foldl_nodup (W, L, H) (idle_indices W L H g)
          (shape.1 * shape.2.1 * shape.2.2) (by omega)
          (idle_indices_nodup W L H g) (centers_sample (idle_indices W L H g)) none
          ?_ (bc, bs) hb
        intro p hp
        exact absurd hp (by simp)
      exact ⟨List.insertionSort (· ≤ ·) bs,
        insertionSort_le_strict_sorted bs hnd_bs, h.symm⟩

/-- Witness for the amended C2 at the counterexample input. -/
theorem C2_amended_sorted_by_flat_index_witness :
    ((L1Clustering.allocate 2 2 2 gC2 (2, 1, 1)).1 = some [(0, 4), (1, 1)]) ∧
    ∃ sel : List Nat, sel.Pairwise (· < ·) ∧
      [((0 : Nat), (4 : Nat)), (1, 1)] = sel.enum.map fun p =>
        (p.1, coord_to_linear_index (coordOfFlat 2 2 p.2).1 (coordOfFlat 2 2 p.2).2.1
          (coordOfFlat 2 2 p.2).2.2 (2, 2, 2)) := by
  have h : (L1Clustering.allocate 2 2 2 gC2 (2, 1, 1)).1 = some [(0, 4), (1, 1)] := by rfl
  exact ⟨h, C2_amended_sorted_by_flat_index 2 2 2 gC2 (2, 1, 1) [(0, 4), (1, 1)] h⟩

lemma mem_idle_indices (W L H : Nat) (g : Grid) (i : Nat) :
    i ∈ idle_indices W L H g ↔ i < W * L * H ∧
      g (coordOfFlat L H i).1 (coordOfFlat L H i).2.1 (coordOfFlat L H i).2.2 = false := by
  unfold idle_indices
  rw [List.mem_filter, List.mem_range]
  simp [Bool.not_eq_true']

lemma coordOfFlat_lt (W L H i : Nat) (hi : i < W * L * H) :
    (coordOfFlat L H i).1 < W ∧ (coordOfFlat L H i).2.1 < L ∧ (coordOfFlat L H i).2.2 < H := by
  have hH : 0 < H := by
    rcases Nat.eq_zero_or_pos H with h | h
    · subst h
      rw [Nat.mul_zero] at hi
      omega
    · exact h
  have hL : 0 < L := by
    rcases Nat.eq_zero_or_pos L with h | h
    · subst h
      rw [Nat.mul_zero, Nat.zero_mul] at hi
      omega
    · exact h
  have hLH : 0 < L * H := Nat.mul_pos hL hH
  unfold coordOfFlat
  refine ⟨?_, Nat.mod_lt _ hL, Nat.mod_lt _ hH⟩
  rw [Nat.div_lt_iff_lt_mul hLH]
  have : W * L * H = W * (L * H) := Nat.mul_assoc W L H
  omega

lemma flat_of_coord_lt (W L H x y z : Nat) (hx : x < W) (hy : y < L) (hz : z < H) :
    x * (L * H) + y * H + z < W * L * H := by
  have step1 : x * (L * H) + y * H + z < (x * L + y + 1) * H := by
    have : (x * L + y + 1) * H = x * (L * H) + y * H + H := by ring
    omega
  have step2 : (x * L + y + 1) * H ≤ W * L * H := by
    apply Nat.mul_le_mul_right
    have h1 : (x + 1) * L ≤ W * L := Nat.mul_le_mul_right L hx
    have h2 : (x + 1) * L = x * L + L := by ring
    omega
  omega

lemma coordOfFlat_of_coord (L H x y z : Nat) (hy : y < L) (hz : z < H) :
    coordOfFlat L H (x * (L * H) + y * H + z) = (x, y, z) := by
  have hH : 0 < H := by omega
  have hL : 0 < L := by omega
  have hdecomp : x * (L * H) + y * H + z = z + H * (y + L * x) := by ring
  unfold coordOfFlat
  rw [hdecomp]
  have h1 : (z + H * (y + L * x)) % H = z := by
    rw [Nat.add_mul_mod_self_left, Nat.mod_eq_of_lt hz]
  have h2 : (z + H * (y + L * x)) / H = y + L * x := by
    rw [Nat.add_mul_div_left _ _ hH, Nat.div_eq_of_lt hz, Nat.zero_add]
  have h3 : (y + L * x) % L = y := by
    rw [Nat.add_mul_mod_self_left, Nat.mod_eq_of_lt hy]
  have h4 : (z + H * (y + L * x)) / (L * H) = x := by
    rw [Nat.mul_comm L H, ← Nat.div_div_eq_div_mul, h2, Nat.add_mul_div_left _ _ hL,
      Nat.div_eq_of_lt hy, Nat.zero_add]
  rw [h1, h2, h3, h4]

lemma range_map_getD (l : List Nat) :
    (List.range l.length).map (fun p => l.getD p 0) = l := by
  apply List.ext_get
  · rw [List.length_map, List.length_range]
  · intro n h1 h2
    rw [List.get_eq_getElem, List.get_eq_getElem, List.getElem_map, List.getElem_range]
    exact List.getD_eq_getElem l 0 h2

lemma l1_center_eval_const (dims : Dims) (idle : List Nat) (k : Nat) (c : Nat)
    (hk : idle.length = k) : (l1_center_eval dims idle k c).2 = idle := by
  unfold l1_center_eval
  simp only
  have hlen : (idle_distances dims idle c).length = k := by
    rw [← hk]
    exact List.length_map _ _
  unfold select_k
  rw [if_pos hlen, ← hk]
  exact range_map_getD idle

lemma l1_foldl_some_const (dims : Dims) (idle : List Nat) (k : Nat)
    (hsel : ∀ c, (l1_center_eval dims idle k c).2 = idle) :
    ∀ (centers : List Nat) (acc : Int × List Nat), acc.2 = idle →
      ∃ bc, centers.foldl (l1_step dims idle k) (some acc) = some (bc, idle) := by
  intro centers
  induction centers with
  | nil =>
    intro acc hacc
    refine ⟨acc.1, ?_⟩
    rw [List.foldl_nil, ← hacc]
  | cons c cs ih =>
    intro acc hacc
    rw [List.foldl_cons]
    rcases acc with ⟨bc, bs⟩
    unfold l1_step
    simp only
    split
    · exact ih (l1_center_eval dims idle k c) (hsel c)
    · exact ih (bc, bs) hacc

lemma centers_sample_ne_nil (idle : List Nat) (h : idle ≠ []) :
    centers_sample idle ≠ [] := by
  unfold centers_sample
  intro hc
  have hlen : 0 < idle.length := List.length_pos.2 h
  have hs : 0 < max 1 (idle.length / 100) := by omega
  have h1 : 1 ≤ (idle.length + max 1 (idle.length / 100) - 1) / max 1 (idle.length / 100) := by
    rw [Nat.le_div_iff_mul_le hs]
    omega
  have h2 := congrArg List.length hc
  rw [List.length_map, List.length_range] at h2
  simp at h2
  omega

/-- C7: when the job volume k equals the number of currently free cells,
L1-Clustering allocate returns a mapping whose values are exactly the torus
linear indices of all currently free cells, each exactly once, regardless
of the center-sampling bound. -/
theorem C7_l1_all_free_cells (W L H : Nat) (g : Grid) (shape : Dims)
    (hk : shape.1 * shape.2.1 * shape.2.2 = (idle_indices W L H g).length)
    (hpos : 0 < shape.1 * shape.2.1 * shape.2.2) :
    ∃ m : List (Nat × Nat), (L1Clustering.allocate W L H g shape).1 = some m ∧
      (m.map Prod.snd).Nodup ∧
      ∀ v : Nat, v ∈ m.map Prod.snd ↔
        ∃ x y z : Nat, x < W ∧ y < L ∧ z < H ∧ g x y z = false ∧
          v = coord_to_linear_index x y z (W, L, H) := by
  have hne : idle_indices W L H g ≠ [] := by
    intro h0
    rw [h0, List.length_nil] at hk
    omega
  obtain ⟨c, cs, hcs⟩ := List.exists_cons_of_ne_nil (centers_sample_ne_nil _ hne)
  have hconst : ∀ c2, (l1_center_eval (W, L, H) (idle_indices W L H g)
      (shape.1 * shape.2.1 * shape.2.2) c2).2 = idle_indices W L H g :=
    fun c2 => l1_center_eval_const _ _ _ c2 hk.symm
  obtain ⟨bc, hbest⟩ : ∃ bc, l1_best (W, L, H) (idle_indices W L H g)
      (shape.1 * shape.2.1 * shape.2.2) = some (bc, idle_indices W L H g) := by
    unfold l1_best
    rw [hcs, List.foldl_cons]
    exact l1_foldl_some_const _ _ _ hconst cs _ (hconst c)
  have hsorted_eq : List.insertionSort (· ≤ ·) (idle_indices W L H g)
      = idle_indices W L H g :=
    List.Sorted.insertionSort_eq ((idle_indices_sorted W L H g).imp fun hab => le_of_lt hab)
  have hred : (L1Clustering.allocate W L H g shape).1 =
      some (((idle_indices W L H g).enum).map fun p =>
        (p.1, coord_to_linear_index (coordOfFlat L H p.2).1 (coordOfFlat L H p.2).2.1
          (coordOfFlat L H p.2).2.2 (W, L, H))) := by
    unfold L1Clustering.allocate
    rw [if_neg (by omega), hbest]
    simp only
    rw [hsorted_eq]
  have hvals : ((((idle_indices W L H g).enum).map fun p =>
      (p.1, coord_to_linear_index (coordOfFlat L H p.2).1 (coordOfFlat L H p.2).2.1
        (coordOfFlat L H p.2).2.2 (W, L, H))).map Prod.snd)
      = (idle_indices W L H g).map fun i =>
        coord_to_linear_index (coordOfFlat L H i).1 (coordOfFlat L H i).2.1
          (coordOfFlat L H i).2.2 (W, L, H) := by
    rw [List.map_map]
    have he : ((fun i => coord_to_linear_index (coordOfFlat L H i).1 (coordOfFlat L H i).2.1
        (coordOfFlat L H i).2.2 (W, L, H)) ∘ (Prod.snd : Nat × Nat → Nat))
        = (Prod.snd ∘ fun p : Nat × Nat =>
          (p.1, coord_to_linear_index (coordOfFlat L H p.2).1 (coordOfFlat L H p.2).2.1
            (coordOfFlat L H p.2).2.2 (W, L, H))) := rfl
    rw [← he, ← List.map_map, List.enum_map_snd]
  refine ⟨_, hred, ?_, ?_⟩
  · rw [hvals]
    apply List.Nodup.map_on ?_ (idle_indices_nodup W L H g)
    intro i1 h1 i2 h2 heq
    have hb1 := ((mem_idle_indices W L H g i1).1 h1).1
    have hb2 := ((mem_idle_indices W L H g i2).1 h2).1
    obtain ⟨v1x, v1y, v1z⟩ := coordOfFlat_lt W L H i1 hb1
    obtain ⟨v2x, v2y, v2z⟩ := coordOfFlat_lt W L H i2 hb2
    obtain ⟨e1, e2, e3⟩ := coord_to_linear_index_inj W L H _ _ _ _ _ _ v1x v1y v2x v2y heq
    exact coordOfFlat_inj L H i1 i2 (Prod.ext_iff.2 ⟨e1, Prod.ext_iff.2 ⟨e2, e3⟩⟩)
  · intro v
    rw [hvals]
    constructor
    · intro hv
      obtain ⟨i, hi, rfl⟩ := List.mem_map.1 hv
      obtain ⟨hb, hfree⟩ := (mem_idle_indices W L H g i).1 hi
      obtain ⟨vx, vy, vz⟩ := coordOfFlat_lt W L H i hb
      exact ⟨(coordOfFlat L H i).1, (coordOfFlat L H i).2.1, (coordOfFlat L H i).2.2,
        vx, vy, vz, hfree, rfl⟩
    · rintro ⟨x, y, z, hx, hy, hz, hfree, rfl⟩
      apply List.mem_map.2
      refine ⟨x * (L * H) + y * H + z, ?_, ?_⟩
      · apply (mem_idle_indices W L H g _).2
        refine ⟨flat_of_coord_lt W L H x y z hx hy hz, ?_⟩
        rw [coordOfFlat_of_coord L H x y z hy hz]
        exact hfree
      · rw [coordOfFlat_of_coord L H x y z hy hz]

/-- All-free grid used by witnesses. -/
def gFree : Grid := fun _ _ _ => false

/-- Witness for C7 on the 2 x 1 x 1 torus with both cells free and job
shape (2, 1, 1). -/
theorem C7_l1_all_free_cells_witness :
    ((2 : Nat) * 1 * 1 = (idle_indices 2 1 1 gFree).length ∧ 0 < (2 : Nat) * 1 * 1) ∧
    ∃ m : List (Nat × Nat), (L1Clustering.allocate 2 1 1 gFree (2, 1, 1)).1 = some m ∧
      (m.map Prod.snd).Nodup ∧
      ∀ v : Nat, v ∈ m.map Prod.snd ↔
        ∃ x y z : Nat, x < 2 ∧ y < 1 ∧ z < 1 ∧ gFree x y z = false ∧
          v = coord_to_linear_index x y z (2, 1, 1) := by
  have h1 : (2 : Nat) * 1 * 1 = (idle_indices 2 1 1 gFree).length := by rfl
  have h2 : 0 < (2 : Nat) * 1 * 1 := by decide
  exact ⟨⟨h1, h2⟩, C7_l1_all_free_cells 2 1 1 gFree (2, 1, 1) h1 h2⟩

/-! SpaceFillingCurve of src/tools/placement_lib.py. -/

/-- Modelled from the spec: the 3-dimensional Hilbert curve object of the
external hilbertcurve library (not part of this repository), described by
the specification glossary as a bijection between 1D rank and 3D
coordinates.  hd is distances_from_points applied to one point, hp is
points_from_distances applied to one rank. -/
structure HilbertModel where
  hd : Coord → Nat
  hp : Nat → Coord

/-- Coordinates of the free cells in the order of np.argwhere(grid == 0):
numpy C-order, x slowest. -/
def free_coords (W L H : Nat) (g : Grid) : List Coord :=
  (List.range W).flatMap fun x =>
    (List.range L).flatMap fun y =>
      (List.range H).filterMap fun z =>
        if g x y z then none else some (x, y, z)

/-- Embedding of SpaceFillingCurve._fetch_availability of
src/tools/placement_lib.py: Hilbert ranks of all free cells, sorted
ascending. -/
def fetch_availability (hm : HilbertModel) (W L H : Nat) (g : Grid) : List Nat :=
  List.insertionSort (· ≤ ·) ((free_coords W L H g).map hm.hd)

/-- Grid after marking the listed coordinates occupied. -/
def markCoords (g : Grid) (cs : List Coord) : Grid :=
  fun x y z => if cs.any fun c => decide (c = (x, y, z)) then true else g x y z

/-- Embedding of SpaceFillingCurve.allocate of src/tools/placement_lib.py:
assigns the first N free cells in Hilbert-rank order to job-local indices
0..N-1; none when fewer than N free cells exist. -/
def SpaceFillingCurve.allocate (hm : HilbertModel) (W L H : Nat) (g : Grid)
    (shape : Dims) : Option (List (Nat × Nat)) × Grid :=
  if (fetch_availability hm W L H g).length < shape.1 * shape.2.1 * shape.2.2 then
    (none, g)
  else
    (some (((((fetch_availability hm W L H g).take
        (shape.1 * shape.2.1 * shape.2.2)).map hm.hp).enum).map fun p =>
      (p.1, coord_to_linear_index p.2.1 p.2.2.1 p.2.2.2 (W, L, H))),
     markCoords g (((fetch_availability hm W L H g).take
        (shape.1 * shape.2.1 * shape.2.2)).map hm.hp))

lemma mem_free_coords (W L H : Nat) (g : Grid) (c : Coord) :
    c ∈ free_coords W L H g ↔
      c.1 < W ∧ c.2.1 < L ∧ c.2.2 < H ∧ g c.1 c.2.1 c.2.2 = false := by
  unfold free_coords
  simp only [List.mem_flatMap, List.mem_filterMap, List.mem_range]
  constructor
  · rintro ⟨x, hx, y, hy, z, hz, hif⟩
    by_cases hg : g x y z
    · rw [if_pos hg] at hif
      exact absurd hif (by simp)
    · rw [if_neg hg] at hif
      injection hif with hif
      rw [← hif]
      exact ⟨hx, hy, hz, by simpa using hg⟩
  · rintro ⟨h1, h2, h3, h4⟩
    exact ⟨c.1, h1, c.2.1, h2, c.2.2, h3, by rw [if_neg (by simp [h4])]⟩

/-- C6: under the modelled Hilbert bijection, Space-Filling-Curve allocate
returns none exactly when fewer than N = A*B*C free cells exist, and every
value of a returned mapping is the torus linear index of a cell that was
free when the call began (so no previously assigned cell is ever
reused). -/
theorem C6_sfc_allocates_free_cells (hm : HilbertModel) (W L H : Nat) (g : Grid)
    (shape : Dims)
    (hinv : ∀ c ∈ free_coords W L H g, hm.hp (hm.hd c) = c) :
    ((SpaceFillingCurve.allocate hm W L H g shape).1 = none ↔
      (free_coords W L H g).length < shape.1 * shape.2.1 * shape.2.2) ∧
    ∀ m, (SpaceFillingCurve.allocate hm W L H g shape).1 = some m →
      ∀ e ∈ m, ∃ c : Coord, c.1 < W ∧ c.2.1 < L ∧ c.2.2 < H ∧
        g c.1 c.2.1 c.2.2 = false ∧
        e.2 = coord_to_linear_index c.1 c.2.1 c.2.2 (W, L, H) := by
  have hlen : (fetch_availability hm W L H g).length = (free_coords W L H g).length := by
    unfold fetch_availability
    rw [(List.perm_insertionSort _ _).length_eq, List.length_map]
  constructor
  · unfold SpaceFillingCurve.allocate
    split
    · next hcond =>
      rw [hlen] at hcond
      exact iff_of_true rfl hcond
    · next hcond =>
      rw [hlen] at hcond
      constructor
      · intro h
        exact absurd h (by simp)
      · intro h
        exact absurd h hcond
  · intro m hm2 e he
    unfold SpaceFillingCurve.allocate at hm2
    split at hm2
    · simp at hm2
    · simp only at hm2
      injection hm2 with hm2
      rw [← hm2] at he
      obtain ⟨p, hp, rfl⟩ := List.mem_map.1 he
      rcases p with ⟨i, c⟩
      obtain ⟨hilt, hceq⟩ := List.mem_enum hp
      have hcmem : c ∈ ((fetch_availability hm W L H g).take
          (shape.1 * shape.2.1 * shape.2.2)).map hm.hp := by
        rw [hceq]
        exact List.getElem_mem hilt
      obtain ⟨r, hr, rfl⟩ := List.mem_map.1 hcmem
      have hr2 : r ∈ fetch_availability hm W L H g := List.mem_of_mem_take hr
      unfold fetch_availability at hr2
      have hr3 : r ∈ (free_coords W L H g).map hm.hd :=
        (List.perm_insertionSort _ _).mem_iff.1 hr2
      obtain ⟨c0, hc0, rfl⟩ := List.mem_map.1 hr3
      have hc0p := (mem_free_coords W L H g c0).1 hc0
      rw [hinv c0 hc0]
      exact ⟨c0, hc0p.1, hc0p.2.1, hc0p.2.2.1, hc0p.2.2.2, rfl⟩

/-- Concrete instance of the modelled Hilbert bijection on the 2x2x2 cube
used by the C6 witness: plane-major rank with its inverse. -/
def hmW : HilbertModel :=
  ⟨fun c => c.1 * 4 + c.2.1 * 2 + c.2.2, fun r => (r / 4, r / 2 % 2, r % 2)⟩

/-- Witness for C6 on the 2 x 2 x 2 torus, all cells free, shape (2, 2, 2),
with the bijection hypothesis discharged by evaluation. -/
theorem C6_sfc_allocates_free_cells_witness :
    (∀ c ∈ free_coords 2 2 2 gFree, hmW.hp (hmW.hd c) = c) ∧
    ((SpaceFillingCurve.allocate hmW 2 2 2 gFree (2, 2, 2)).1 = none ↔
      (free_coords 2 2 2 gFree).length < 2 * 2 * 2) := by
  have hinv : ∀ c ∈ free_coords 2 2 2 gFree, hmW.hp (hmW.hd c) = c := by decide
  exact ⟨hinv, (C6_sfc_allocates_free_cells hmW 2 2 2 gFree (2, 2, 2) hinv).1⟩
